import Mathlib

set_option maxRecDepth 20000

/-!
Shallow embedding of the gopherbone SSD1306 display driver
(src/ssd1306/ssd1306.go) and verification of its specification.

Modelling conventions:
* Go `int` and `rune` become `Int`; Go `/` and `%` on ints truncate toward
  zero, so they become `Int.tdiv` / `Int.tmod`.
* Go `byte` values become `Nat` (kept below 256 by the operations).
  Go byte shifts with a `uint` shift amount: a negative int converted to
  `uint` becomes a huge number, and any shift amount at least 8 yields 0.
* The in-memory framebuffer `ssd1306.buf` becomes `List Nat`; writing
  `ssd1306.buf[element] = ...` with an out-of-range index is a runtime
  panic in Go, modelled by a sticky `panicked` flag on the display state
  (the writes after a panic would not execute in Go; the flag records that
  the fault happened, which is all the claims need).
* The GPIO reset line and the i2c bus are external collaborators; their
  fallible calls are modelled by outcome parameters `Option ε` and the
  frames handed to the bus are recorded in returned lists.
* `math.Abs`, and the float64 `dx, dy, err, e2` in `Line`, only ever hold
  integer values obtained by +, -, and doubling of coordinate differences;
  float64 arithmetic is exact on these, so they are embedded as `Int`.
-/

namespace Gopherbone

/-- Go `b << s` on a byte where `s` comes from a `uint` conversion of an
int: negative ints wrap to huge uints, and byte shifts of 8 or more give 0;
otherwise the shifted byte wraps modulo 256. -/
def goShlB (b : Nat) (s : Int) : Nat :=
  if 0 ≤ s ∧ s < 8 then (b <<< s.toNat) % 256 else 0

/-- Go `b >> s` on a byte, same `uint` conversion convention as `goShlB`. -/
def goShrB (b : Nat) (s : Int) : Nat :=
  if 0 ≤ s ∧ s < 8 then b >>> s.toNat else 0

/-- Go `b &^ v` (AND NOT) on bytes: clear in `b` the bits set in `v`. -/
def andNotB (b v : Nat) : Nat :=
  Nat.land b (Nat.xor v 0xff)

/-- The `image/color` `Gray16` struct: a single 16-bit luminance field. -/
structure Gray16 where
  y : Nat
deriving DecidableEq

/-- The `color.White` constant: `Gray16{0xffff}`. -/
def white : Gray16 := ⟨0xffff⟩

/-- The `color.Black` constant: `Gray16{0}`. -/
def black : Gray16 := ⟨0⟩

/-- One transmission handed to `i2cbus.WriteI2C(dc, payload)`. -/
structure Frame where
  dc : Nat
  payload : List Nat
deriving DecidableEq

/-- The `dc` byte chosen by `WriteCmd` (ssd1306.go lines 193-207):
0x80 for a single command byte, 0x00 for a multi-byte command. -/
def writeCmdDC (cmd : List Nat) : Nat :=
  if cmd.length = 1 then 0x80 else 0x00

/-- The `dc` byte chosen by `WriteData` (ssd1306.go lines 209-223):
0xc0 for a single data byte, 0x40 for a multi-byte data transfer. -/
def writeDataDC (data : List Nat) : Nat :=
  if data.length = 1 then 0xc0 else 0x40

/-- `IFACE_I2C` constant. -/
def IFACE_I2C : Int := 1

/-- `WriteCmd` (lines 193-207): on the i2c interface, transmit the payload
with the command `dc` prefix and return the bus outcome; otherwise no-op.
The returned list records the frames handed to the bus. -/
def WriteCmd (ε : Type) (iface : Int) (busRes : Option ε) (cmd : List Nat) :
    Option ε × List Frame :=
  if iface = IFACE_I2C then (busRes, [Frame.mk (writeCmdDC cmd) cmd])
  else (none, [])

/-- `WriteData` (lines 209-223): same as `WriteCmd` with the data prefixes. -/
def WriteData (ε : Type) (iface : Int) (busRes : Option ε) (data : List Nat) :
    Option ε × List Frame :=
  if iface = IFACE_I2C then (busRes, [Frame.mk (writeDataDC data) data])
  else (none, [])

/-- The `SSD1306` struct (lines 107-114), restricted to the fields the
drawing operations read (`rst` and `i2cbus` are external handles), plus the
`panicked` instrumentation flag for out-of-range buffer writes. -/
structure SSD1306 where
  iface : Int
  width : Int
  height : Int
  buf : List Nat
  panicked : Bool
deriving DecidableEq

/-- One Go assignment `buf[i] = f (buf[i])`: performs the read-modify-write
when `i` is in range, otherwise records the index-out-of-range panic. -/
def writeB (buf : List Nat) (flag : Bool) (i : Int) (f : Nat → Nat) :
    List Nat × Bool :=
  if 0 ≤ i ∧ i < (buf.length : Int) then
    (buf.set i.toNat (f (buf.getD i.toNat 0)), flag)
  else (buf, true)

/-- Lift `writeB` to the display state. -/
def writeBuf (d : SSD1306) (i : Int) (f : Nat → Nat) : SSD1306 :=
  { d with buf := (writeB d.buf d.panicked i f).1,
           panicked := (writeB d.buf d.panicked i f).2 }

/-- The pure core of `New` (lines 116-136): `width`, `height` recorded and
`buf = make([]byte, width*height/8)` (all zero). -/
def mkDisplay (iface w h : Int) : SSD1306 :=
  ⟨iface, w, h, List.replicate ((w * h).tdiv 8).toNat 0, false⟩

/-- The byte written by a set (OR) or clear (AND NOT) drawing write,
as selected by `c == color.White` throughout ssd1306.go. -/
def chw (c : Gray16) (old v : Nat) : Nat :=
  if c = white then Nat.lor old v else andNotB old v

/-- `Point` (lines 237-248): bounds-check, then set or clear bit `y % 8`
of byte `width*(y/8) + x`. -/
def Point (d : SSD1306) (x y : Int) (c : Gray16) : SSD1306 :=
  if x ≥ d.width ∨ y ≥ d.height ∨ x < 0 ∨ y < 0 then d
  else writeBuf d (d.width * (y.tdiv 8) + x) (fun b => chw c b (goShlB 1 (y.tmod 8)))

/-- Fold a list of plotted points through `Point`; used to express the
rasterizer loops, whose only effect on the display is their `Point` calls. -/
def plotAll (d : SSD1306) (c : Gray16) (pts : List (Int × Int)) : SSD1306 :=
  pts.foldl (fun s p => Point s p.1 p.2 c) d

/-- The Bresenham loop of `Line` (lines 268-286) as the list of points it
plots. `fuel` bounds the iteration count; `lineTrace` passes `dx + dy + 1`,
which `lineLoop_mem_endpoint` below proves is never exhausted. Each
iteration plots `(x0, y0)`, stops if it is the endpoint, conditionally
advances x (plotting and stopping if the endpoint is reached right after),
then conditionally advances y. -/
def lineLoop (x1 y1 dx dy sx sy : Int) :
    Nat → Int → Int → Int → List (Int × Int)
  | 0, _, _, _ => []
  | fuel + 1, x0, y0, e =>
    if x0 = x1 ∧ y0 = y1 then [(x0, y0)]
    else
      let e2 := 2 * e
      let x0' := if e2 > -dy then x0 + sx else x0
      let e' := if e2 > -dy then e - dy else e
      if x0' = x1 ∧ y0 = y1 then [(x0, y0), (x0', y0)]
      else
        let y0' := if e2 < dx then y0 + sy else y0
        let e'' := if e2 < dx then e' + dx else e'
        (x0, y0) :: lineLoop x1 y1 dx dy sx sy fuel x0' y0' e''

/-- The points plotted by `Line` (lines 250-287): `dx = |x1-x0|`,
`dy = |y1-y0|`, step signs from strict comparisons, initial error `dx - dy`. -/
def lineTrace (x0 y0 x1 y1 : Int) : List (Int × Int) :=
  let dx := |x1 - x0|
  let dy := |y1 - y0|
  let sx : Int := if x0 < x1 then 1 else -1
  let sy : Int := if y0 < y1 then 1 else -1
  lineLoop x1 y1 dx dy sx sy ((dx + dy).toNat + 1) x0 y0 (dx - dy)

/-- `Line` (lines 250-287): plot every point of the Bresenham trace. -/
def Line (d : SSD1306) (x0 y0 x1 y1 : Int) (c : Gray16) : SSD1306 :=
  plotAll d c (lineTrace x0 y0 x1 y1)

/-- The midpoint-circle loop of `Circle` (lines 301-318) as the list of
points it plots: while `x < y`, conditionally decrement y (adjusting `f`
through the already-updated `ddF_y`), always increment x (adjusting `f`
through the updated `ddF_x`), then plot the 8 octant points. The loop
increments `x` by 1 every iteration and never increases `y`, so it runs at
most `radius` times; `circleTrace` passes fuel `radius.toNat + 1`. -/
def circleLoopPts (x0 y0 : Int) :
    Nat → Int → Int → Int → Int → Int → List (Int × Int)
  | 0, _, _, _, _, _ => []
  | fuel + 1, f, ddFx, ddFy, x, y =>
    if x < y then
      let ddFy' := if f ≥ 0 then ddFy + 2 else ddFy
      let f' := if f ≥ 0 then f + ddFy' else f
      let y' := if f ≥ 0 then y - 1 else y
      let x' := x + 1
      let ddFx' := ddFx + 2
      let f'' := f' + ddFx'
      [(x0 + x', y0 + y'), (x0 - x', y0 + y'), (x0 + x', y0 - y'),
       (x0 - x', y0 - y'), (x0 + y', y0 + x'), (x0 - y', y0 + x'),
       (x0 + y', y0 - x'), (x0 - y', y0 - x')]
        ++ circleLoopPts x0 y0 fuel f'' ddFx' ddFy' x' y'
    else []

/-- The points plotted by `Circle` (lines 289-319): the four axis-aligned
extrema, then the octant loop started at `f = 1 - r`, `ddF_x = 1`,
`ddF_y = -2r`, `x = 0`, `y = r`. -/
def circleTrace (x0 y0 radius : Int) : List (Int × Int) :=
  [(x0, y0 + radius), (x0, y0 - radius), (x0 + radius, y0), (x0 - radius, y0)]
    ++ circleLoopPts x0 y0 (radius.toNat + 1) (1 - radius) 1 (-2 * radius) 0 radius

/-- `Circle` (lines 289-319): plot every point of the midpoint-circle trace. -/
def Circle (d : SSD1306) (x0 y0 radius : Int) (c : Gray16) : SSD1306 :=
  plotAll d c (circleTrace x0 y0 radius)

/-- The Go loop `for x := a; x <= b; x++` as the list of visited ints. -/
def intRange (a b : Int) : List Int :=
  (List.range (b - a + 1).toNat).map (fun k => a + (k : Int))

/-- One masked row fill of `Rectangle` (e.g. lines 334-341): for every
`x` in `[x0, x1]`, OR or AND-NOT the mask `m` into `buf[width*page + x]`. -/
def rectFillRow (d : SSD1306) (x0 x1 page : Int) (m : Nat) (c : Gray16) :
    SSD1306 :=
  (intRange x0 x1).foldl (fun s x => writeBuf s (s.width * page + x) (fun b => chw c b m)) d

/-- The middle loop of `Rectangle` (lines 343-353):
`for ; y0/8 < y1/8; y0 = y0/8*8 + 8` fills every visited page row — the
page rows `y0/8, y0/8 + 1, ..., y1/8 - 1`, starting at the page row of the
ORIGINAL `y0` — with the full mask `0xff`. -/
def rectMid (d : SSD1306) (x0 x1 p0 p1 : Int) (c : Gray16) : SSD1306 :=
  ((List.range (p1 - p0).toNat).map (fun k => p0 + (k : Int))).foldl
    (fun s p => rectFillRow s x0 x1 p 0xff c) d

/-- The default branch of `Rectangle` (lines 365-368) and also the naive
reference of the spec: one horizontal `Line` per row `y` in `[y0, y1]`. -/
def rectRows (d : SSD1306) (x0 x1 : Int) (c : Gray16) (ys : List Int) :
    SSD1306 :=
  ys.foldl (fun s y => Line s x0 y x1 y c) d

/-- `Rectangle` (lines 321-370): backwards boxes are ignored; boxes that
degenerate to a line delegate to `Line`; boxes spanning more than one page
row take the optimized path — top row with mask `0xff << (y0%8 - 1)`,
middle loop (which starts at the top page row, see `rectMid`), bottom row
with mask `0xff >> (7 - y1%8)`; otherwise row-by-row lines. -/
def Rectangle (d : SSD1306) (x0 y0 x1 y1 : Int) (c : Gray16) : SSD1306 :=
  if x0 > x1 ∨ y0 > y1 then d
  else if x0 = x1 ∨ y0 = y1 then Line d x0 y0 x1 y1 c
  else if y0.tdiv 8 < y1.tdiv 8 then
    let d1 := rectFillRow d x0 x1 (y0.tdiv 8) (goShlB 0xff (y0.tmod 8 - 1)) c
    let d2 := rectMid d1 x0 x1 (y0.tdiv 8) (y1.tdiv 8) c
    rectFillRow d2 x0 x1 (y1.tdiv 8) (goShrB 0xff (7 - y1.tmod 8)) c
  else rectRows d x0 x1 c (intRange y0 y1)

/-- The naive filled rectangle exactly as claim C1 words it: the horizontal
`Line(x0, y, x1, y, color)` for every `y` from `y0` to `y1`. -/
def rectNaiveSpec (d : SSD1306) (x0 y0 x1 y1 : Int) (c : Gray16) : SSD1306 :=
  rectRows d x0 x1 c (intRange y0 y1)

/-- One glyph row loop of `Char` (e.g. lines 386-392):
`for i := 0; i < 5 && x+i < width; i++ { buf[base+i] |= g i }` (or `&^=`).
Structured as countdown recursion with fuel 5 = the loop bound. -/
def charRowAux (x base : Int) (c : Gray16) (g : Nat → Nat) :
    Nat → Nat → SSD1306 → SSD1306
  | 0, _, st => st
  | fuel + 1, i, st =>
    if i < 5 ∧ x + (i : Int) < st.width then
      charRowAux x base c g fuel (i + 1) (writeBuf st (base + (i : Int)) (fun b => chw c b (g i)))
    else st

/-- One glyph row of `Char`: run the loop from `i = 0`. -/
def charRow (st : SSD1306) (x base : Int) (c : Gray16) (g : Nat → Nat) :
    SSD1306 :=
  charRowAux x base c g 5 0 st

/-- `Char` (lines 373-405). `font` is the package-level 5-bytes-per-glyph
column table, externally supplied (not part of the core per the spec) and
therefore a parameter here; `r` is the Go `rune`. Computes
`bufi = width*(y/8) + x` and `bufiup = bufi - width`, rejects `x >= width`,
`y >= height` and runes outside `[0, 127]` with -1, then ORs/AND-NOTs the
glyph bytes shifted right by `8 - y%8` into row `bufi` and shifted left by
`y%8` into row `bufiup`, each row only when its base index passes the
`0 <= base < width*height/8` guard. Returns 0 on the non-rejected path. -/
def Char (d : SSD1306) (x y : Int) (c : Gray16) (r : Int) (font : Nat → Nat) :
    Int × SSD1306 :=
  let bufi := d.width * (y.tdiv 8) + x
  let bufiup := bufi - d.width
  if x ≥ d.width ∨ y ≥ d.height then (-1, d)
  else if r < 0 ∨ r > 127 then (-1, d)
  else
    let d1 :=
      if bufi < (d.width * d.height).tdiv 8 ∧ bufi ≥ 0 then
        charRow d x bufi c (fun i => goShrB (font (5 * r.toNat + i)) (8 - y.tmod 8))
      else d
    let d2 :=
      if bufiup < (d.width * d.height).tdiv 8 ∧ bufiup ≥ 0 then
        charRow d1 x bufiup c (fun i => goShlB (font (5 * r.toNat + i)) (y.tmod 8))
      else d1
    (0, d2)

/-- The chunking loop of `Draw` (lines 183-188):
`for i := 0; i < len(buf); i += 32 { err = WriteData(buf[i:i+32]); ... }`.
`e k` is the bus outcome of the k-th transmission. Slicing `buf[i:i+32]`
with `i + 32 > len(buf)` is a Go slice-bounds panic, recorded in the third
component; the frame list records the transmissions attempted. `fuel` bounds
the iteration count; `Draw` passes `len(buf) + 1`, an over-approximation of
the `len(buf)/32 + 1` iterations the loop can make. -/
def drawLoop (ε : Type) (buf : List Nat) (e : Nat → Option ε) :
    Nat → Nat → Option ε × List Frame × Bool
  | 0, _ => (none, [], false)
  | fuel + 1, i =>
    if i < buf.length then
      if i + 32 ≤ buf.length then
        let chunk := (buf.drop i).take 32
        match e (i / 32) with
        | some er => (some er, [Frame.mk (writeDataDC chunk) chunk], false)
        | none =>
          let rest := drawLoop ε buf e fuel (i + 32)
          (rest.1, Frame.mk (writeDataDC chunk) chunk :: rest.2.1, rest.2.2)
      else (none, [], true)
    else (none, [], false)

/-- `Draw` (lines 181-191): on the i2c interface, run the chunking loop;
the display state is returned untouched (the source never assigns to any
field of the receiver). Result: (state, returned error, frames, panicked). -/
def Draw (ε : Type) (d : SSD1306) (e : Nat → Option ε) :
    SSD1306 × Option ε × List Frame × Bool :=
  if d.iface = IFACE_I2C then (d, drawLoop ε d.buf e (d.buf.length + 1) 0)
  else (d, none, [], false)

/-- The 24-byte configuration sequence of `Setup` (lines 160-175), with the
named constants substituted: DISP_OFF, START_LINE|0, ADDRESS_MODE,
ADDRESS_MODE_HORI, CONTRAST, 0xcf, HORI_MIRROR, INVERSE_OFF, MUX_RATIO,
0x3f, VERT_SHIFT, 0x00, VERT_MIRROR, CLOCK_FREQ, 0xf0, PRECHARGE, 0xf1,
COM_CONFIG, COM_CONFIG2|COM_CONFIG2_ALT, VCOMH_DESELECT_LEVEL, 0x40,
CHARGE_PUMP, CHARGE_PUMP_ON, DISP_ON. -/
def setupCmds : List Nat :=
  [0xae, 0x40, 0x20, 0x00, 0x81, 0xcf, 0xa1, 0xa6, 0xa8, 0x3f, 0xd3, 0x00,
   0xc8, 0xd5, 0xf0, 0xd9, 0xf1, 0xda, 0x12, 0xdb, 0x40, 0x8d, 0x14, 0xaf]

/-- `Setup` (lines 143-178). `dirRes`, `lowRes`, `highRes` are the outcomes
of `rst.SetDirection("out")`, `rst.SetValue(0)` and `rst.SetValue(1)`;
each is checked and returned on failure, in source order. `busRes` is the
outcome of the bus write inside the final `WriteCmd(setupCmds)`; the source
calls `ssd1306.WriteCmd(...)` WITHOUT assigning its result to `err`, so
that outcome is dropped and the function returns nil. The frame list
records the command frames handed to the bus. -/
def Setup (ε : Type) (iface : Int) (dirRes lowRes highRes busRes : Option ε) :
    Option ε × List Frame :=
  match dirRes with
  | some er => (some er, [])
  | none =>
    match lowRes with
    | some er => (some er, [])
    | none =>
      match highRes with
      | some er => (some er, [])
      | none => (none, (WriteCmd ε iface busRes setupCmds).2)

/-- The observable steps of `Close`: bus frames and the reset release. -/
inductive CloseAct where
  | frame (f : Frame)
  | unexport
deriving DecidableEq

/-- `Close` (lines 138-141): `WriteData([]byte{0xae})`, then
`rst.Unexport()`. Note the source routes the 0xae (DISP_OFF) byte through
`WriteData`, the data framing path. -/
def Close (ε : Type) (iface : Int) (busRes : Option ε) : List CloseAct :=
  ((WriteData ε iface busRes [0xae]).2.map CloseAct.frame) ++ [CloseAct.unexport]

/-- The data-model invariant established by `New` for a valid geometry:
nonnegative dimensions, height a multiple of 8 (the spec requires both
dimensions to be multiples of 8; only the height divisibility matters for
byte addressing), and `len(buf) = width * (height/8)`. -/
def Inv (d : SSD1306) : Prop :=
  0 ≤ d.width ∧ 0 ≤ d.height ∧ d.height % 8 = 0 ∧
    d.buf.length = (d.width * (d.height / 8)).toNat

instance (d : SSD1306) : Decidable (Inv d) := by
  unfold Inv
  infer_instance

theorem writeBuf_width (d : SSD1306) (i : Int) (f : Nat → Nat) :
    (writeBuf d i f).width = d.width := rfl

theorem writeBuf_height (d : SSD1306) (i : Int) (f : Nat → Nat) :
    (writeBuf d i f).height = d.height := rfl

theorem writeBuf_iface (d : SSD1306) (i : Int) (f : Nat → Nat) :
    (writeBuf d i f).iface = d.iface := rfl

theorem writeBuf_buf_length (d : SSD1306) (i : Int) (f : Nat → Nat) :
    (writeBuf d i f).buf.length = d.buf.length := by
  simp only [writeBuf, writeB]
  split <;> simp

theorem writeBuf_panicked_of_lt (d : SSD1306) (i : Int) (f : Nat → Nat)
    (h0 : 0 ≤ i) (h1 : i < (d.buf.length : Int)) :
    (writeBuf d i f).panicked = d.panicked := by
  simp only [writeBuf, writeB]
  rw [if_pos ⟨h0, h1⟩]

theorem Inv_writeBuf (d : SSD1306) (i : Int) (f : Nat → Nat) (h : Inv d) :
    Inv (writeBuf d i f) := by
  obtain ⟨h1, h2, h3, h4⟩ := h
  exact ⟨h1, h2, h3, by rw [writeBuf_buf_length]; exact h4⟩

/-- For an in-range pixel under the invariant, the byte index computed by
`Point` is a valid index into the framebuffer. -/
theorem point_element_range (W H len x y : Int)
    (hW : 0 ≤ W) (hH8 : H % 8 = 0) (hlen : len = W * (H / 8))
    (hx0 : 0 ≤ x) (hx : x < W) (hy0 : 0 ≤ y) (hy : y < H) :
    0 ≤ W * (y.tdiv 8) + x ∧ W * (y.tdiv 8) + x < len := by
  rw [Int.tdiv_eq_ediv hy0 (by norm_num)]
  have hq : y / 8 ≤ H / 8 - 1 := by omega
  have hq0 : 0 ≤ y / 8 := by omega
  have hmul : W * (y / 8) ≤ W * (H / 8 - 1) :=
    mul_le_mul_of_nonneg_left hq hW
  constructor
  · have := mul_nonneg hW hq0
    omega
  · have : W * (H / 8 - 1) = W * (H / 8) - W := by ring
    omega

theorem Point_width (d : SSD1306) (x y : Int) (c : Gray16) :
    (Point d x y c).width = d.width := by
  unfold Point
  split <;> rfl

theorem Point_height (d : SSD1306) (x y : Int) (c : Gray16) :
    (Point d x y c).height = d.height := by
  unfold Point
  split <;> rfl

theorem Point_buf_length (d : SSD1306) (x y : Int) (c : Gray16) :
    (Point d x y c).buf.length = d.buf.length := by
  unfold Point
  split
  · rfl
  · rw [writeBuf_buf_length]

theorem Inv_Point (d : SSD1306) (x y : Int) (c : Gray16) (h : Inv d) :
    Inv (Point d x y c) := by
  obtain ⟨h1, h2, h3, h4⟩ := h
  exact ⟨by rw [Point_width]; exact h1,
         by rw [Point_height]; exact h2,
         by rw [Point_height]; exact h3,
         by rw [Point_buf_length, Point_width, Point_height]; exact h4⟩

/-- Under the invariant, `Point` never trips the out-of-range write:
in range it writes a valid index, out of range it returns the state. -/
theorem Point_panicked (d : SSD1306) (x y : Int) (c : Gray16) (h : Inv d) :
    (Point d x y c).panicked = d.panicked := by
  obtain ⟨h1, h2, h3, h4⟩ := h
  unfold Point
  split
  · rfl
  · rename_i hin
    push_neg at hin
    obtain ⟨hxW, hyH, hx0, hy0⟩ := hin
    have hlen : (d.buf.length : Int) = d.width * (d.height / 8) := by
      rw [h4]
      exact Int.toNat_of_nonneg (mul_nonneg h1 (by omega))
    obtain ⟨hge, hlt⟩ := point_element_range d.width d.height
      (d.buf.length : Int) x y h1 h3 hlen (by omega) (by omega)
      (by omega) (by omega)
    exact writeBuf_panicked_of_lt d _ _ hge hlt

/-- `Point` with an out-of-range coordinate is the identity. -/
theorem Point_out_of_range (d : SSD1306) (x y : Int) (c : Gray16)
    (h : x ≥ d.width ∨ y ≥ d.height ∨ x < 0 ∨ y < 0) :
    Point d x y c = d := by
  unfold Point
  rw [if_pos h]

/-- Folding any list of points through `Point` preserves the invariant and
never trips the panic flag. -/
theorem plotAll_panicked (c : Gray16) (pts : List (Int × Int)) :
    ∀ d : SSD1306, Inv d →
      (plotAll d c pts).panicked = d.panicked ∧ Inv (plotAll d c pts) := by
  induction pts with
  | nil => intro d h; exact ⟨rfl, h⟩
  | cons p t ih =>
    intro d h
    have h1 := Point_panicked d p.1 p.2 c h
    have h2 := Inv_Point d p.1 p.2 c h
    obtain ⟨ih1, ih2⟩ := ih (Point d p.1 p.2 c) h2
    exact ⟨by simpa [plotAll] using ih1.trans h1, by simpa [plotAll] using ih2⟩

/-- C3 counterexample: the claim says the drawing primitives, Rectangle
included, never fault on out-of-range coordinates. On an 8x16 display,
`Rectangle(0, 0, 20, 15, White)` takes the optimized multi-page path, which
indexes `buf[width*page + x]` without any bounds check; at `x = 16` the
index passes the end of the 16-byte framebuffer and Go panics. -/
theorem rectangle_panics_cex :
    (Rectangle (mkDisplay 1 8 16) 0 0 20 15 white).panicked = true := by decide

/-- C3 (amended): `Point` silently ignores out-of-range coordinates and
never faults, and `Line` and `Circle`, which touch the framebuffer only
through `Point`, never fault either, for every coordinate input; but
`Rectangle`'s optimized multi-page path writes the framebuffer directly
without bounds checks and can fault on out-of-range coordinates
(see `rectangle_panics_cex`). -/
theorem point_primitives_safe (d : SSD1306) (h : Inv d) :
    (∀ x y : Int, ∀ c : Gray16, (Point d x y c).panicked = d.panicked)
    ∧ (∀ x y : Int, ∀ c : Gray16,
        x ≥ d.width ∨ y ≥ d.height ∨ x < 0 ∨ y < 0 → Point d x y c = d)
    ∧ (∀ x0 y0 x1 y1 : Int, ∀ c : Gray16,
        (Line d x0 y0 x1 y1 c).panicked = d.panicked)
    ∧ (∀ x0 y0 r : Int, ∀ c : Gray16,
        (Circle d x0 y0 r c).panicked = d.panicked) := by
  refine ⟨fun x y c => Point_panicked d x y c h,
          fun x y c hout => Point_out_of_range d x y c hout,
          fun x0 y0 x1 y1 c => ?_, fun x0 y0 r c => ?_⟩
  · exact (plotAll_panicked c (lineTrace x0 y0 x1 y1) d h).1
  · exact (plotAll_panicked c (circleTrace x0 y0 r) d h).1

/-- Witness for `point_primitives_safe` at a concrete 8x16 display. -/
theorem point_primitives_safe_witness :
    Inv (mkDisplay 1 8 16)
    ∧ (Point (mkDisplay 1 8 16) 30 2 white).panicked = (mkDisplay 1 8 16).panicked
    ∧ Point (mkDisplay 1 8 16) 30 2 white = mkDisplay 1 8 16
    ∧ (Line (mkDisplay 1 8 16) 0 0 7 15 white).panicked = (mkDisplay 1 8 16).panicked
    ∧ (Circle (mkDisplay 1 8 16) 4 8 30 white).panicked = (mkDisplay 1 8 16).panicked :=
  ⟨by decide,
   (point_primitives_safe (mkDisplay 1 8 16) (by decide)).1 30 2 white,
   (point_primitives_safe (mkDisplay 1 8 16) (by decide)).2.1 30 2 white
     (Or.inl (by decide)),
   (point_primitives_safe (mkDisplay 1 8 16) (by decide)).2.2.1 0 0 7 15 white,
   (point_primitives_safe (mkDisplay 1 8 16) (by decide)).2.2.2 4 8 30 white⟩

/-- C1: the optimized multi-page path of `Rectangle` does NOT match the
naive row-by-row `Line` fill. On an all-zero 8x16 display,
`Rectangle(0, 3, 1, 12, White)` spans pages 0 and 1 (`3/8 = 0 /= 1 = 12/8`);
the top-mask is computed with the off-by-one shift `0xff << (y0%8 - 1)` and
the middle-page loop starts at the page row of the original `y0`, so the top
page bytes become 0xff (rows 0-7 lit) where the naive fill gives 0xf8
(rows 3-7 lit): the source's own dedicated top-mask computation is
annihilated by the very next loop, contradicting the intended algorithm the
spec describes. -/
theorem rectangle_optimized_differs_from_naive :
    (3 : Int).tdiv 8 ≠ (12 : Int).tdiv 8
    ∧ (Rectangle (mkDisplay 1 8 16) 0 3 1 12 white).buf
        ≠ (rectNaiveSpec (mkDisplay 1 8 16) 0 3 1 12 white).buf
    ∧ (Rectangle (mkDisplay 1 8 16) 0 3 1 12 white).buf.getD 0 0 = 0xff
    ∧ (rectNaiveSpec (mkDisplay 1 8 16) 0 3 1 12 white).buf.getD 0 0 = 0xf8 := by
  refine ⟨by decide, by decide, by decide, by decide⟩

/-- Every run of the Bresenham loop with positive fuel plots its starting
point first. -/
theorem lineLoop_head (x1 y1 dx dy sx sy : Int) (fuel : Nat) (x0 y0 e : Int) :
    ∃ t, lineLoop x1 y1 dx dy sx sy (fuel + 1) x0 y0 e = (x0, y0) :: t := by
  simp only [lineLoop]
  split_ifs <;> exact ⟨_, rfl⟩

/-- The Bresenham loop invariant: parametrize the moving point by the
number of x-steps `a` and y-steps `b` already taken. The error term is
always `dx*(1+b) - dy*(1+a)`, steps never overshoot (`a` stays at most
`dx`, `b` at most `dy`), every iteration makes progress, and therefore with
fuel exceeding the remaining steps the loop reaches and plots `(x1, y1)`. -/
theorem lineLoop_mem_endpoint (x1 y1 dx dy sx sy : Int)
    (hdx : 0 ≤ dx) (hdy : 0 ≤ dy)
    (hsx : sx = 1 ∨ sx = -1) (hsy : sy = 1 ∨ sy = -1) :
    ∀ (fuel : Nat) (a b x0 y0 e : Int), 0 ≤ a → a ≤ dx → 0 ≤ b → b ≤ dy →
      dx - a + (dy - b) < (fuel : Int) →
      x0 = x1 - sx * (dx - a) → y0 = y1 - sy * (dy - b) →
      e = dx * (1 + b) - dy * (1 + a) →
      (x1, y1) ∈ lineLoop x1 y1 dx dy sx sy fuel x0 y0 e := by
  intro fuel
  induction fuel with
  | zero =>
    intro a b x0 y0 e _ _ _ _ hf _ _ _
    simp only [Nat.cast_zero] at hf
    omega
  | succ n ih =>
    intro a b x0 y0 e ha0 had hb0 hbd hf hx0 hy0 he
    have hxiff : (x0 = x1) ↔ a = dx := by
      rw [hx0]; rcases hsx with h | h <;> subst h <;> omega
    have hyiff : (y0 = y1) ↔ b = dy := by
      rw [hy0]; rcases hsy with h | h <;> subst h <;> omega
    simp only [lineLoop]
    by_cases hab : a = dx ∧ b = dy
    · rw [if_pos ⟨hxiff.mpr hab.1, hyiff.mpr hab.2⟩]
      simp [hxiff.mpr hab.1, hyiff.mpr hab.2]
    · rw [if_neg (by rw [hxiff, hyiff]; exact hab)]
      by_cases hxc : 2 * e > -dy
      · -- x advances this iteration; it cannot overshoot
        have ha_lt : a < dx := by
          rcases lt_or_eq_of_le had with h | h
          · exact h
          · exfalso
            have hb_lt : b < dy := by
              rcases lt_or_eq_of_le hbd with h' | h'
              · exact h'
              · exact absurd ⟨h, h'⟩ hab
            rw [he, h] at hxc
            nlinarith [mul_nonneg hdx (by omega : (0:Int) ≤ dy - 1 - b)]
        simp only [if_pos hxc]
        by_cases hmid : x0 + sx = x1 ∧ y0 = y1
        · rw [if_pos hmid]
          simp [hmid.1, hmid.2]
        · rw [if_neg hmid]
          apply List.mem_cons_of_mem
          by_cases hyc : 2 * e < dx
          · have hb_lt : b < dy := by
              rcases lt_or_eq_of_le hbd with h' | h'
              · exact h'
              · exfalso
                rw [he, h'] at hyc
                nlinarith [mul_nonneg hdy (by omega : (0:Int) ≤ dx - 1 - a)]
            simp only [if_pos hyc]
            exact ih (a + 1) (b + 1) _ _ _ (by omega) (by omega) (by omega)
              (by omega) (by omega) (by rw [hx0]; ring) (by rw [hy0]; ring)
              (by rw [he]; ring)
          · simp only [if_neg hyc]
            exact ih (a + 1) b _ _ _ (by omega) (by omega) hb0 hbd
              (by omega) (by rw [hx0]; ring) hy0 (by rw [he]; ring)
      · simp only [if_neg hxc]
        rw [if_neg (by rw [hxiff, hyiff]; exact hab)]
        apply List.mem_cons_of_mem
        by_cases hyc : 2 * e < dx
        · have hb_lt : b < dy := by
            rcases lt_or_eq_of_le hbd with h' | h'
            · exact h'
            · exfalso
              have ha_lt : a < dx := by
                rcases lt_or_eq_of_le had with h | h
                · exact h
                · exact absurd ⟨h, h'⟩ hab
              rw [he, h'] at hyc
              nlinarith [mul_nonneg hdy (by omega : (0:Int) ≤ dx - 1 - a)]
          simp only [if_pos hyc]
          exact ih a (b + 1) _ _ _ ha0 had (by omega) (by omega)
            (by omega) hx0 (by rw [hy0]; ring) (by rw [he]; ring)
        · exfalso
          rw [he] at hxc hyc
          have h1 : 2 * (dx * (1 + b) - dy * (1 + a)) ≤ -dy := by omega
          have h2 : dx ≤ 2 * (dx * (1 + b) - dy * (1 + a)) := by omega
          have hdx0 : dx = 0 := by linarith
          have hdy0 : dy = 0 := by linarith
          omega

/-- C7: `Line` plots both endpoints inclusively for every pair of
endpoints; the degenerate `Line(x, y, x, y)` trace is exactly the single
point `(x, y)`; and on an 8x8 all-zero buffer `Line(0, 0, 4, 0, White)`
plots exactly pixels (0,0) through (4,0) — the trace is those five points
and the resulting framebuffer lights bit 0 of bytes 0-4 and nothing else.
The float64 `dx, dy, err, e2` of the source hold integer values moved only
by +, -, and doubling, on which float64 arithmetic is exact, so they are
embedded as integers. -/
theorem line_plots_endpoints :
    (∀ x0 y0 x1 y1 : Int,
      (x0, y0) ∈ lineTrace x0 y0 x1 y1 ∧ (x1, y1) ∈ lineTrace x0 y0 x1 y1)
    ∧ (∀ x y : Int, lineTrace x y x y = [(x, y)])
    ∧ lineTrace 0 0 4 0 = [(0, 0), (1, 0), (2, 0), (3, 0), (4, 0)]
    ∧ (Line (mkDisplay 1 8 8) 0 0 4 0 white).buf = [1, 1, 1, 1, 1, 0, 0, 0] := by
  refine ⟨fun x0 y0 x1 y1 => ⟨?_, ?_⟩, fun x y => ?_, by decide, by decide⟩
  · obtain ⟨t, ht⟩ := lineLoop_head x1 y1 (|x1 - x0|) (|y1 - y0|)
      (if x0 < x1 then 1 else -1) (if y0 < y1 then 1 else -1)
      ((|x1 - x0| + |y1 - y0|).toNat) x0 y0 (|x1 - x0| - |y1 - y0|)
    simp only [lineTrace]
    rw [ht]
    exact List.mem_cons_self _ _
  · simp only [lineTrace]
    apply lineLoop_mem_endpoint _ _ _ _ _ _ (abs_nonneg _) (abs_nonneg _)
      (by split <;> simp) (by split <;> simp) _ 0 0
    · exact le_refl 0
    · exact abs_nonneg _
    · exact le_refl 0
    · exact abs_nonneg _
    · have h1 : (0:Int) ≤ |x1 - x0| := abs_nonneg _
      have h2 : (0:Int) ≤ |y1 - y0| := abs_nonneg _
      omega
    · split_ifs with h
      · rw [abs_of_nonneg (by omega : (0:Int) ≤ x1 - x0)]; ring
      · rw [abs_of_nonpos (by omega : x1 - x0 ≤ 0)]; ring
    · split_ifs with h
      · rw [abs_of_nonneg (by omega : (0:Int) ≤ y1 - y0)]; ring
      · rw [abs_of_nonpos (by omega : y1 - y0 ≤ 0)]; ring
    · ring
  · simp only [lineTrace]
    simp [lineLoop]

/-- C9: glyph rendering returns -1 exactly when the rune is outside
[0, 127] or the anchor has `x >= width` or `y >= height`, and in that case
the display state (in particular the framebuffer) is untouched; on every
other input it returns the success code 0. -/
theorem char_rejects_invalid (d : SSD1306) (x y : Int) (c : Gray16)
    (r : Int) (font : Nat → Nat) :
    ((Char d x y c r font).1 = -1 ↔
      (r < 0 ∨ 127 < r ∨ d.width ≤ x ∨ d.height ≤ y))
    ∧ ((r < 0 ∨ 127 < r ∨ d.width ≤ x ∨ d.height ≤ y) →
        (Char d x y c r font).2 = d)
    ∧ (¬(r < 0 ∨ 127 < r ∨ d.width ≤ x ∨ d.height ≤ y) →
        (Char d x y c r font).1 = 0) := by
  by_cases h1 : x ≥ d.width ∨ y ≥ d.height
  · simp only [Char, if_pos h1]
    exact ⟨⟨fun _ => by omega, fun _ => trivial⟩, fun _ => trivial,
      fun hn => absurd (by omega) hn⟩
  · by_cases h2 : r < 0 ∨ r > 127
    · simp only [Char, if_neg h1, if_pos h2]
      exact ⟨⟨fun _ => by omega, fun _ => trivial⟩, fun _ => trivial,
        fun hn => absurd (by omega) hn⟩
    · simp only [Char, if_neg h1, if_neg h2]
      exact ⟨⟨fun h0 => absurd h0 (by omega), fun hd => absurd hd (by omega)⟩,
        fun hd => absurd hd (by omega), fun _ => trivial⟩

/-- Witness for `char_rejects_invalid`: rune 200 on an 8x16 display is
rejected with -1 and the state is unchanged. -/
theorem char_rejects_invalid_witness :
    (Char (mkDisplay 1 8 16) 0 0 white 200 (fun _ => 0)).1 = -1
    ∧ (Char (mkDisplay 1 8 16) 0 0 white 200 (fun _ => 0)).2 = mkDisplay 1 8 16 :=
  ⟨(char_rejects_invalid (mkDisplay 1 8 16) 0 0 white 200 (fun _ => 0)).1.mpr
      (Or.inr (Or.inl (by decide))),
   (char_rejects_invalid (mkDisplay 1 8 16) 0 0 white 200 (fun _ => 0)).2.1
      (Or.inr (Or.inl (by decide)))⟩

/-- The chunking loop under an all-success bus: returns nil, no panic when
the buffer splits evenly, and the frames are the consecutive 32-byte data
chunks of the rest of the buffer, in order. -/
theorem drawLoop_ok (ε : Type) (buf : List Nat) (e : Nat → Option ε)
    (hsucc : ∀ k, e k = none) (hdvd : 32 ∣ buf.length) :
    ∀ (fuel m : Nat), 32 * m ≤ buf.length →
      buf.length - 32 * m < 32 * fuel →
      (drawLoop ε buf e fuel (32 * m)).1 = none
      ∧ (drawLoop ε buf e fuel (32 * m)).2.2 = false
      ∧ (((drawLoop ε buf e fuel (32 * m)).2.1.map Frame.payload).join
          = buf.drop (32 * m))
      ∧ (∀ fr ∈ (drawLoop ε buf e fuel (32 * m)).2.1,
          fr.dc = 0x40 ∧ fr.payload.length = 32)
      ∧ (drawLoop ε buf e fuel (32 * m)).2.1.length
          = (buf.length - 32 * m) / 32 := by
  intro fuel
  induction fuel with
  | zero => intro m hm hb; omega
  | succ n ih =>
    intro m hm hb
    simp only [drawLoop]
    by_cases hlt : 32 * m < buf.length
    · have h32 : 32 * m + 32 ≤ buf.length := by omega
      rw [if_pos hlt, if_pos h32]
      have hdiv : 32 * m / 32 = m := by omega
      rw [hdiv, hsucc m]
      have hchunklen : ((buf.drop (32 * m)).take 32).length = 32 := by
        simp [List.length_take, List.length_drop]
        omega
      have hdc : writeDataDC ((buf.drop (32 * m)).take 32) = 0x40 := by
        unfold writeDataDC
        rw [hchunklen]
        norm_num
      obtain ⟨ih1, ih2, ih3, ih4, ih5⟩ := ih (m + 1) (by omega) (by omega)
      have harg : 32 * (m + 1) = 32 * m + 32 := by ring
      rw [harg] at ih1 ih2 ih3 ih4 ih5
      refine ⟨ih1, ih2, ?_, ?_, ?_⟩
      · simp only [List.map_cons, List.join_cons, ih3]
        have hdd : buf.drop (32 * m + 32) = (buf.drop (32 * m)).drop 32 := by
          rw [List.drop_drop]
        rw [hdd]
        exact List.take_append_drop 32 (buf.drop (32 * m))
      · intro fr hfr
        rcases List.mem_cons.mp hfr with h | h
        · rw [h]
          exact ⟨hdc, hchunklen⟩
        · exact ih4 fr h
      · simp only [List.length_cons, ih5]
        omega
    · rw [if_neg hlt]
      have hm' : 32 * m = buf.length := by omega
      refine ⟨rfl, rfl, ?_, by intro fr hfr; simp at hfr, by simp; omega⟩
      rw [hm']
      simp

/-- The chunking loop when the bus fails first at chunk `k` (and `k` is a
real chunk): the loop returns that error, attempts exactly the chunks
through `k`, and does not fault. -/
theorem drawLoop_abort (ε : Type) (buf : List Nat) (e : Nat → Option ε)
    (k : Nat) (er : ε) (hfirst : ∀ j, j < k → e j = none)
    (hk : e k = some er) (hdvd : 32 ∣ buf.length)
    (hklen : 32 * k < buf.length) :
    ∀ (fuel m : Nat), m ≤ k → buf.length - 32 * m < 32 * fuel →
      (drawLoop ε buf e fuel (32 * m)).1 = some er
      ∧ (drawLoop ε buf e fuel (32 * m)).2.1.length = k + 1 - m
      ∧ (drawLoop ε buf e fuel (32 * m)).2.2 = false
      ∧ (∀ fr ∈ (drawLoop ε buf e fuel (32 * m)).2.1, fr.dc = 0x40) := by
  intro fuel
  induction fuel with
  | zero => intro m hmk hb; omega
  | succ n ih =>
    intro m hmk hb
    have hlt : 32 * m < buf.length := by omega
    have h32 : 32 * m + 32 ≤ buf.length := by omega
    simp only [drawLoop]
    rw [if_pos hlt, if_pos h32]
    have hdiv : 32 * m / 32 = m := by omega
    rw [hdiv]
    have hchunklen : ((buf.drop (32 * m)).take 32).length = 32 := by
      simp [List.length_take, List.length_drop]
      omega
    have hdc : writeDataDC ((buf.drop (32 * m)).take 32) = 0x40 := by
      unfold writeDataDC
      rw [hchunklen]
      norm_num
    rcases Nat.lt_or_ge m k with hmlt | hmge
    · rw [hfirst m hmlt]
      obtain ⟨ih1, ih2, ih3, ih4⟩ := ih (m + 1) (by omega) (by omega)
      have harg : 32 * (m + 1) = 32 * m + 32 := by ring
      rw [harg] at ih1 ih2 ih3 ih4
      refine ⟨ih1, ?_, ih3, ?_⟩
      · simp only [List.length_cons, ih2]
        omega
      · intro fr hfr
        rcases List.mem_cons.mp hfr with h | h
        · rw [h]; exact hdc
        · exact ih4 fr h
    · have hmk' : m = k := by omega
      rw [hmk'] at hdc ⊢
      rw [hk]
      refine ⟨rfl, ?_, rfl, ?_⟩
      · rw [List.length_singleton]
        omega
      · intro fr hfr
        rcases List.mem_cons.mp hfr with h | h
        · rw [h]; exact hdc
        · simp at h

/-- C6: on the i2c path with a framebuffer that splits into 32-byte chunks,
`Draw` transmits the entire framebuffer as consecutive 32-byte data frames
(dc = 0x40, never a command prefix) in increasing page-major order — their
payloads concatenate back to the buffer, and there are exactly
`len(buf)/32` of them (32 for 128x64). On the first transport error it
returns that error having attempted only chunks 0..k. The display state
(in particular the framebuffer) is returned untouched in all cases. -/
theorem draw_full_frame_spec (ε : Type) (d : SSD1306) (e : Nat → Option ε)
    (hif : d.iface = IFACE_I2C) (h32 : 32 ∣ d.buf.length) :
    ((Draw ε d e).1 = d)
    ∧ ((∀ k, e k = none) →
        (Draw ε d e).2.1 = none
        ∧ (Draw ε d e).2.2.2 = false
        ∧ (((Draw ε d e).2.2.1.map Frame.payload).join = d.buf)
        ∧ (∀ fr ∈ (Draw ε d e).2.2.1, fr.dc = 0x40 ∧ fr.payload.length = 32)
        ∧ (Draw ε d e).2.2.1.length = d.buf.length / 32)
    ∧ (∀ (k : Nat) (er : ε), (∀ j, j < k → e j = none) → e k = some er →
        32 * k < d.buf.length →
        (Draw ε d e).2.1 = some er
        ∧ (Draw ε d e).2.2.1.length = k + 1
        ∧ (Draw ε d e).2.2.2 = false
        ∧ (∀ fr ∈ (Draw ε d e).2.2.1, fr.dc = 0x40)) := by
  unfold Draw
  rw [if_pos hif]
  refine ⟨rfl, fun hsucc => ?_, fun k er hfirst hk hklen => ?_⟩
  · obtain ⟨h1, h2, h3, h4, h5⟩ := drawLoop_ok ε d.buf e hsucc h32
      (d.buf.length + 1) 0 (by omega) (by omega)
    rw [Nat.mul_zero] at h1 h2 h3 h4 h5
    exact ⟨h1, h2, by simpa using h3, h4, by simpa using h5⟩
  · obtain ⟨h1, h2, h3, h4⟩ := drawLoop_abort ε d.buf e k er hfirst hk h32
      hklen (d.buf.length + 1) 0 (by omega) (by omega)
    rw [Nat.mul_zero] at h1 h2 h3 h4
    exact ⟨h1, by simpa using h2, h3, h4⟩

/-- Witness for `draw_full_frame_spec` on a 128x64 display with an
error-free bus: exactly 32 transmissions and the state unchanged. -/
theorem draw_full_frame_witness :
    (Draw Unit (mkDisplay 1 128 64) (fun _ => none)).2.2.1.length
        = (mkDisplay 1 128 64).buf.length / 32
    ∧ (mkDisplay 1 128 64).buf.length / 32 = 32
    ∧ (Draw Unit (mkDisplay 1 128 64) (fun _ => none)).1 = mkDisplay 1 128 64 :=
  ⟨((draw_full_frame_spec Unit (mkDisplay 1 128 64) (fun _ => none)
      (by decide) (by decide)).2.1 (fun _ => rfl)).2.2.2.2,
   by decide,
   (draw_full_frame_spec Unit (mkDisplay 1 128 64) (fun _ => none)
      (by decide) (by decide)).1⟩

/-- The chunking loop under an all-success bus faults when the buffer does
not split evenly into 32-byte chunks: it reaches the final short chunk and
the slice `buf[i:i+32]` is out of bounds. -/
theorem drawLoop_panics (ε : Type) (buf : List Nat) (e : Nat → Option ε)
    (hsucc : ∀ k, e k = none) (hnd : ¬ 32 ∣ buf.length) :
    ∀ (fuel m : Nat), 32 * m ≤ buf.length →
      buf.length - 32 * m < 32 * fuel →
      (drawLoop ε buf e fuel (32 * m)).2.2 = true := by
  intro fuel
  induction fuel with
  | zero => intro m hm hb; omega
  | succ n ih =>
    intro m hm hb
    have hlt : 32 * m < buf.length := by omega
    simp only [drawLoop]
    rw [if_pos hlt]
    by_cases h32 : 32 * m + 32 ≤ buf.length
    · rw [if_pos h32]
      have hdiv : 32 * m / 32 = m := by omega
      rw [hdiv, hsucc m]
      have := ih (m + 1) (by omega) (by omega)
      rw [show 32 * (m + 1) = 32 * m + 32 by ring] at this
      exact this
    · rw [if_neg h32]

/-- C10: with an error-free bus on the i2c path, `Draw` faults (slice
bounds panic on the final chunk) exactly when the framebuffer length is not
a multiple of 32 — e.g. an 8x8 display with its 8-byte framebuffer. -/
theorem draw_fault_iff (ε : Type) (d : SSD1306) (e : Nat → Option ε)
    (hif : d.iface = IFACE_I2C) (hsucc : ∀ k, e k = none) :
    (Draw ε d e).2.2.2 = true ↔ ¬ (32 ∣ d.buf.length) := by
  unfold Draw
  rw [if_pos hif]
  constructor
  · intro hpanic hdvd
    have := (drawLoop_ok ε d.buf e hsucc hdvd (d.buf.length + 1) 0
      (by omega) (by omega)).2.1
    rw [Nat.mul_zero] at this
    simp only [this] at hpanic
    exact Bool.false_ne_true hpanic
  · intro hnd
    have := drawLoop_panics ε d.buf e hsucc hnd (d.buf.length + 1) 0
      (by omega) (by omega)
    rw [Nat.mul_zero] at this
    exact this

/-- Witness for `draw_fault_iff`: an 8x8 display (8-byte framebuffer)
faults in `Draw` even with an error-free bus. -/
theorem draw_fault_iff_witness :
    (Draw Unit (mkDisplay 1 8 8) (fun _ => none)).2.2.2 = true :=
  (draw_fault_iff Unit (mkDisplay 1 8 8) (fun _ => none)
    (by decide) (fun _ => rfl)).mpr (by decide)

/-- C4: `Setup` propagates each failure of the three reset-control calls
(first three conjuncts below show each reset-control error is returned),
but it DISCARDS the outcome of the configuration `WriteCmd` mid call: with
all reset calls succeeding and the bus transmission failing, `Setup`
returns nil (first conjunct) even though the 24-byte configuration frame
was attempted (last conjunct) and its transmission failed — the source
never assigns `ssd1306.WriteCmd(...)`'s result to `err`. -/
theorem setup_masks_bus_error :
    (Setup Unit 1 none none none (some ())).1 = none
    ∧ (Setup Unit 1 (some ()) none none none).1 = some ()
    ∧ (Setup Unit 1 none (some ()) none none).1 = some ()
    ∧ (Setup Unit 1 none none (some ()) none).1 = some ()
    ∧ (Setup Unit 1 none none none (some ())).2
        = [Frame.mk 0x00 setupCmds] := by
  exact ⟨rfl, rfl, rfl, rfl, by decide⟩

/-- C5: `Close` sends the 0xae power-off opcode through `WriteData` — the
DATA framing path, with the single-byte data prefix 0xc0 — and only then
releases the reset control. The claim (and the spec and the device
protocol) requires the command framing path, whose prefixes are 0x80/0x00;
0xc0 is neither: the opcode is therefore framed as pixel data. -/
theorem close_uses_data_framing :
    Close Unit 1 none
        = [CloseAct.frame (Frame.mk 0xc0 [0xae]), CloseAct.unexport]
    ∧ writeDataDC [0xae] = 0xc0
    ∧ writeCmdDC [0xae] = 0x80
    ∧ (0xc0 : Nat) ≠ 0x80 ∧ (0xc0 : Nat) ≠ 0x00 := by
  exact ⟨by decide, by decide, by decide, by decide, by decide⟩

/-- C8: the framing prefix depends only on the payload length (payload
content is never inspected): a one-byte command gets 0x80 and a longer one
0x00, a one-byte data transfer gets 0xc0 and a longer one 0x40; the four
prefixes are pairwise distinct and the data pair is disjoint from the
command pair; and on the i2c interface `WriteCmd`/`WriteData` transmit
exactly one frame tagged with that prefix. -/
theorem framer_dc_spec :
    (∀ p q : List Nat, p.length = q.length →
      writeCmdDC p = writeCmdDC q ∧ writeDataDC p = writeDataDC q)
    ∧ (∀ b : Nat, writeCmdDC [b] = 0x80 ∧ writeDataDC [b] = 0xc0)
    ∧ (∀ p : List Nat, p.length ≠ 1 →
        writeCmdDC p = 0x00 ∧ writeDataDC p = 0x40)
    ∧ ((0x80 : Nat) ≠ 0x00 ∧ (0xc0 : Nat) ≠ 0x40 ∧ (0x80 : Nat) ≠ 0xc0
        ∧ (0x80 : Nat) ≠ 0x40 ∧ (0x00 : Nat) ≠ 0xc0 ∧ (0x00 : Nat) ≠ 0x40)
    ∧ (∀ (ε : Type) (res : Option ε) (p : List Nat),
        (WriteCmd ε 1 res p).2 = [Frame.mk (writeCmdDC p) p]
        ∧ (WriteData ε 1 res p).2 = [Frame.mk (writeDataDC p) p]) := by
  refine ⟨fun p q h => ?_, fun b => ⟨rfl, rfl⟩, fun p h => ?_, by decide,
    fun ε res p => ?_⟩
  · unfold writeCmdDC writeDataDC
    rw [h]
    exact ⟨rfl, rfl⟩
  · unfold writeCmdDC writeDataDC
    rw [if_neg h, if_neg h]
    exact ⟨rfl, rfl⟩
  · unfold WriteCmd WriteData IFACE_I2C
    exact ⟨by rw [if_pos rfl], by rw [if_pos rfl]⟩

/-- Witness for `framer_dc_spec` at concrete payloads: the single power-off
byte and the two-byte addressing-mode command. -/
theorem framer_dc_witness :
    writeCmdDC [0xae] = 0x80 ∧ writeDataDC [0xae] = 0xc0
    ∧ writeCmdDC [0x20, 0x00] = 0x00 ∧ writeDataDC [0x20, 0x00] = 0x40 :=
  ⟨(framer_dc_spec.2.1 0xae).1, (framer_dc_spec.2.1 0xae).2,
   (framer_dc_spec.2.2.1 [0x20, 0x00] (by decide)).1,
   (framer_dc_spec.2.2.1 [0x20, 0x00] (by decide)).2⟩

/-- C2 counterexample: anchor (0, 11) on an all-zero 8x24 display
(page 1, `y % 8 = 3`), glyph column bytes all 0xff, set color. The claim
says the next page row BELOW (page 2, byte index 16) receives the bytes
shifted left by 3 (0xf8). Instead, byte 16 is still 0, the anchor page row
received `0xff >> 5 = 0x07`, and the page row ABOVE (page 0, byte index 0)
received `0xff << 3 = 0xf8`: the source writes the second half to
`bufiup = bufi - width`, the row above, not below. -/
theorem char_writes_page_above_cex :
    (Char (mkDisplay 1 8 24) 0 11 white 0 (fun _ => 0xff)).2.buf.getD 16 0 = 0
    ∧ (Char (mkDisplay 1 8 24) 0 11 white 0 (fun _ => 0xff)).2.buf.getD 8 0 = 0x07
    ∧ (Char (mkDisplay 1 8 24) 0 11 white 0 (fun _ => 0xff)).2.buf.getD 0 0 = 0xf8 := by
  exact ⟨by decide, by decide, by decide⟩

theorem charRowAux_width (c : Gray16) (g : Nat → Nat) (x base : Int) :
    ∀ (fuel i : Nat) (st : SSD1306),
      (charRowAux x base c g fuel i st).width = st.width
      ∧ (charRowAux x base c g fuel i st).height = st.height
      ∧ (charRowAux x base c g fuel i st).buf.length = st.buf.length := by
  intro fuel
  induction fuel with
  | zero => intro i st; exact ⟨rfl, rfl, rfl⟩
  | succ n ih =>
    intro i st
    simp only [charRowAux]
    split_ifs with h
    · obtain ⟨ih1, ih2, ih3⟩ := ih (i + 1) (writeBuf st (base + (i:Int)) (fun b => chw c b (g i)))
      exact ⟨ih1, ih2, ih3.trans (writeBuf_buf_length st _ _)⟩
    · exact ⟨rfl, rfl, rfl⟩

/-- What one write of the glyph-row loop does to byte `j`. -/
theorem writeBuf_getD (d : SSD1306) (i : Int) (f : Nat → Nat) (j : Nat) :
    (writeBuf d i f).buf.getD j 0 =
      if 0 ≤ i ∧ i < (d.buf.length : Int) ∧ i.toNat = j
      then f (d.buf.getD j 0)
      else d.buf.getD j 0 := by
  simp only [writeBuf, writeB]
  by_cases h : 0 ≤ i ∧ i < (d.buf.length : Int)
  · rw [if_pos h]
    by_cases hj : i.toNat = j
    · rw [if_pos ⟨h.1, h.2, hj⟩]
      subst hj
      have hlt : i.toNat < d.buf.length := by omega
      simp [List.getD, List.getElem?_set_self, hlt]
    · rw [if_neg (by tauto)]
      simp [List.getD, List.getElem?_set_ne hj]
  · rw [if_neg (by tauto), if_neg (by tauto)]

/-- Byte-level characterization of the glyph-row loop `charRowAux`: byte
`j` receives exactly one OR / AND-NOT of `g k` for its column offset
`k = j - base` when `i <= k < 5` and column `x + k` is on screen, and is
untouched otherwise. Requires that every write the loop can make lands in
bounds (which `Char`'s guards and the display invariant provide). -/
theorem charRowAux_getD (c : Gray16) (g : Nat → Nat) (x base : Int) :
    ∀ (fuel i : Nat) (st : SSD1306), fuel + i = 5 →
      (∀ k : Nat, k < 5 → x + (k:Int) < st.width →
        0 ≤ base + (k:Int) ∧ base + (k:Int) < (st.buf.length : Int)) →
      ∀ j : Nat,
        (charRowAux x base c g fuel i st).buf.getD j 0 =
          if (i:Int) ≤ (j:Int) - base ∧ (j:Int) - base < 5
              ∧ x + ((j:Int) - base) < st.width
          then chw c (st.buf.getD j 0) (g ((j:Int) - base).toNat)
          else st.buf.getD j 0 := by
  intro fuel
  induction fuel with
  | zero =>
    intro i st hfi hWB j
    rw [if_neg (by omega)]
    rfl
  | succ n ih =>
    intro i st hfi hWB j
    simp only [charRowAux]
    by_cases hc : i < 5 ∧ x + (i:Int) < st.width
    · rw [if_pos hc]
      have hib := hWB i hc.1 hc.2
      have hw := writeBuf_getD st (base + (i:Int)) (fun b => chw c b (g i)) j
      set st' := writeBuf st (base + (i:Int)) (fun b => chw c b (g i)) with hst'
      have hWB' : ∀ k : Nat, k < 5 → x + (k:Int) < st'.width →
          0 ≤ base + (k:Int) ∧ base + (k:Int) < (st'.buf.length : Int) := by
        intro k hk hkx
        rw [writeBuf_width] at hkx
        rw [writeBuf_buf_length]
        exact hWB k hk hkx
      have := ih (i + 1) st' (by omega) hWB' j
      rw [this]
      rw [show st'.width = st.width from writeBuf_width st _ _]
      by_cases hj : (j:Int) = base + (i:Int)
      · have hcond1 : ¬((i:Int) + 1 ≤ (j:Int) - base ∧ (j:Int) - base < 5
            ∧ x + ((j:Int) - base) < st.width) := by
          push_cast
          omega
        rw [if_neg (by push_cast; push_cast at hcond1; exact hcond1)]
        rw [hw, if_pos ⟨hib.1, hib.2, by omega⟩]
        rw [if_pos (by push_cast; omega)]
        have : ((j:Int) - base).toNat = i := by omega
        rw [this]
      · have hwj : st'.buf.getD j 0 = st.buf.getD j 0 := by
          rw [hw, if_neg (by omega)]
        rw [hwj]
        by_cases hreg : (i:Int) + 1 ≤ (j:Int) - base ∧ (j:Int) - base < 5
            ∧ x + ((j:Int) - base) < st.width
        · rw [if_pos (by push_cast; push_cast at hreg; omega),
              if_pos (by omega)]
        · rw [if_neg (by push_cast; push_cast at hreg; omega),
              if_neg (by omega)]
    · rw [if_neg hc]
      rw [if_neg (by push_cast at hc ⊢; omega)]

/-- Specialization of `charRowAux_getD` to the full loop `charRow`. -/
theorem charRow_getD (st : SSD1306) (c : Gray16) (g : Nat → Nat)
    (x base : Int)
    (hWB : ∀ k : Nat, k < 5 → x + (k:Int) < st.width →
      0 ≤ base + (k:Int) ∧ base + (k:Int) < (st.buf.length : Int)) (j : Nat) :
    (charRow st x base c g).buf.getD j 0 =
      if 0 ≤ (j:Int) - base ∧ (j:Int) - base < 5
          ∧ x + ((j:Int) - base) < st.width
      then chw c (st.buf.getD j 0) (g ((j:Int) - base).toNat)
      else st.buf.getD j 0 := by
  have := charRowAux_getD c g x base 5 0 st rfl hWB j
  simpa using this

theorem land255_of_lt (old : Nat) (h : old < 256) : Nat.land old 255 = old := by
  have h2 : Nat.land old 255 = old &&& (2 ^ 8 - 1) := by
    norm_num [HAnd.hAnd, AndOp.and]
  have h3 := Nat.and_pow_two_sub_one_eq_mod old 8
  omega

theorem chw_zero (c : Gray16) (old : Nat) (h : old < 256) :
    chw c old 0 = old := by
  unfold chw andNotB
  split
  · exact Nat.or_zero old
  · rw [show Nat.xor 0 0xff = 255 from by decide]
    exact land255_of_lt old h

/-- C2 (amended): for an in-range anchor and valid rune, `Char` succeeds
(returns 0) and splits the glyph across the page row containing the anchor
and the page row ABOVE it (not below): columns `x..x+4` of page `y/8`
receive the glyph bytes shifted right by `8 - y%8` (a no-op write of 0 when
`y % 8 = 0`, conjunct 5), columns of page `y/8 - 1` — when that page exists
(`y/8 >= 1`) — receive them shifted left by `y%8`, every write ORs (set)
or AND-NOTs (clear) into the existing byte so no byte outside those two
column ranges changes (conjunct 4), and recombining the two shifted parts
(high part shifted back left by `8 - s`, low part shifted back right by
`s`) reconstructs every glyph byte exactly (conjunct 6). -/
theorem char_split_pages (d : SSD1306) (font : Nat → Nat) (x y r : Int)
    (c : Gray16) (hInv : Inv d) (hbytes : ∀ b ∈ d.buf, b < 256)
    (hx0 : 0 ≤ x) (hxW : x < d.width) (hy0 : 0 ≤ y) (hyH : y < d.height)
    (hr0 : 0 ≤ r) (hr127 : r ≤ 127) :
    ((Char d x y c r font).1 = 0)
    ∧ (∀ i : Nat, i < 5 → x + (i:Int) < d.width →
        (Char d x y c r font).2.buf.getD
            (d.width * y.tdiv 8 + x + (i:Int)).toNat 0
          = chw c (d.buf.getD (d.width * y.tdiv 8 + x + (i:Int)).toNat 0)
              (goShrB (font (5 * r.toNat + i)) (8 - y.tmod 8)))
    ∧ (1 ≤ y.tdiv 8 → ∀ i : Nat, i < 5 → x + (i:Int) < d.width →
        (Char d x y c r font).2.buf.getD
            (d.width * (y.tdiv 8 - 1) + x + (i:Int)).toNat 0
          = chw c (d.buf.getD (d.width * (y.tdiv 8 - 1) + x + (i:Int)).toNat 0)
              (goShlB (font (5 * r.toNat + i)) (y.tmod 8)))
    ∧ (∀ j : Nat,
        (∀ i : Nat, i < 5 → x + (i:Int) < d.width →
          (j:Int) ≠ d.width * y.tdiv 8 + x + (i:Int)
          ∧ (j:Int) ≠ d.width * (y.tdiv 8 - 1) + x + (i:Int)) →
        (Char d x y c r font).2.buf.getD j 0 = d.buf.getD j 0)
    ∧ (y.tmod 8 = 0 → ∀ i : Nat, i < 5 → x + (i:Int) < d.width →
        (Char d x y c r font).2.buf.getD
            (d.width * y.tdiv 8 + x + (i:Int)).toNat 0
          = d.buf.getD (d.width * y.tdiv 8 + x + (i:Int)).toNat 0)
    ∧ (∀ f : Nat, f < 256 → ∀ s : Nat, 1 ≤ s → s < 8 →
        Nat.lor ((goShrB f (8 - (s:Int))) <<< (8 - s))
          (goShrB (goShlB f (s:Int)) (s:Int)) = f) := by
  obtain ⟨hW, hH, hH8, hlen⟩ := hInv
  have hW1 : 0 < d.width := by omega
  have hpe : y.tdiv 8 = y / 8 := Int.tdiv_eq_ediv hy0 (by norm_num)
  have hp0 : 0 ≤ y.tdiv 8 := by rw [hpe]; omega
  have hpH : y.tdiv 8 ≤ d.height / 8 - 1 := by rw [hpe]; omega
  have hlenI : (d.buf.length : Int) = d.width * (d.height / 8) := by
    rw [hlen]
    exact Int.toNat_of_nonneg (mul_nonneg hW (by omega))
  have hWH8 : (d.width * d.height).tdiv 8 = d.width * (d.height / 8) := by
    rw [Int.tdiv_eq_ediv (mul_nonneg hW hH) (by norm_num)]
    exact Int.mul_ediv_assoc _ (Int.dvd_of_emod_eq_zero hH8)
  have hBmul1 : d.width * y.tdiv 8 ≤ d.width * (d.height / 8 - 1) :=
    mul_le_mul_of_nonneg_left hpH hW
  have hBmul2 : d.width * (d.height / 8 - 1)
      = d.width * (d.height / 8) - d.width := by ring
  have hBmul3 : 0 ≤ d.width * y.tdiv 8 := mul_nonneg hW hp0
  have hWB1 : ∀ k : Nat, k < 5 → x + (k:Int) < d.width →
      0 ≤ d.width * y.tdiv 8 + x + (k:Int)
      ∧ d.width * y.tdiv 8 + x + (k:Int) < (d.buf.length : Int) := by
    intro k _ hkx
    constructor
    · omega
    · omega
  have hg1 : d.width * y.tdiv 8 + x < (d.width * d.height).tdiv 8
      ∧ d.width * y.tdiv 8 + x ≥ 0 := by
    rw [hWH8]
    omega
  have h1g : ¬(x ≥ d.width ∨ y ≥ d.height) := by omega
  have h2g : ¬(r < 0 ∨ r > 127) := by omega
  have hrecon : ∀ f : Nat, f < 256 → ∀ s : Nat, 1 ≤ s → s < 8 →
      Nat.lor ((goShrB f (8 - (s:Int))) <<< (8 - s))
        (goShrB (goShlB f (s:Int)) (s:Int)) = f := by decide
  simp only [Char, if_neg h1g, if_neg h2g, if_pos hg1]
  have hrow1 := charRow_getD d c
    (fun i => goShrB (font (5 * r.toNat + i)) (8 - y.tmod 8)) x
    (d.width * y.tdiv 8 + x) hWB1
  set d1 := charRow d x (d.width * y.tdiv 8 + x) c
    (fun i => goShrB (font (5 * r.toNat + i)) (8 - y.tmod 8)) with hd1def
  have hd1w : d1.width = d.width :=
    (charRowAux_width c _ x (d.width * y.tdiv 8 + x) 5 0 d).1
  have hd1len : d1.buf.length = d.buf.length :=
    (charRowAux_width c _ x (d.width * y.tdiv 8 + x) 5 0 d).2.2
  by_cases hp1 : 1 ≤ y.tdiv 8
  · have hA1 : d.width * 1 ≤ d.width * y.tdiv 8 :=
      mul_le_mul_of_nonneg_left hp1 hW
    have hg2 : d.width * y.tdiv 8 + x - d.width < (d.width * d.height).tdiv 8
        ∧ d.width * y.tdiv 8 + x - d.width ≥ 0 := by
      rw [hWH8]
      omega
    rw [if_pos hg2]
    have hWB2 : ∀ k : Nat, k < 5 → x + (k:Int) < d1.width →
        0 ≤ d.width * y.tdiv 8 + x - d.width + (k:Int)
        ∧ d.width * y.tdiv 8 + x - d.width + (k:Int)
            < (d1.buf.length : Int) := by
      intro k hk hkx
      rw [hd1w] at hkx
      rw [hd1len]
      obtain ⟨u, v⟩ := hWB1 k hk hkx
      constructor
      · omega
      · omega
    have hrow2 := charRow_getD d1 c
      (fun i => goShlB (font (5 * r.toNat + i)) (y.tmod 8)) x
      (d.width * y.tdiv 8 + x - d.width) hWB2
    rw [hd1w] at hrow2
    have hBup : d.width * (y.tdiv 8 - 1) = d.width * y.tdiv 8 - d.width := by
      ring
    refine ⟨trivial, ?_, ?_, ?_, ?_, hrecon⟩
    · -- anchor page row
      intro i hi hix
      have hj0 := (hWB1 i hi hix).1
      have hjc : (((d.width * y.tdiv 8 + x + (i:Int)).toNat : Int))
          = d.width * y.tdiv 8 + x + (i:Int) := Int.toNat_of_nonneg hj0
      rw [hrow2, hjc, if_neg (by omega), hrow1, hjc, if_pos (by omega)]
      rw [show (d.width * y.tdiv 8 + x + (i:Int)
        - (d.width * y.tdiv 8 + x)).toNat = i from by omega]
    · -- page row above the anchor
      intro _ i hi hix
      have hIdx : d.width * (y.tdiv 8 - 1) + x + (i:Int)
          = d.width * y.tdiv 8 + x - d.width + (i:Int) := by ring
      rw [hIdx]
      have hj0 := (hWB2 i hi (by rw [hd1w]; exact hix)).1
      have hjc : (((d.width * y.tdiv 8 + x - d.width + (i:Int)).toNat : Int))
          = d.width * y.tdiv 8 + x - d.width + (i:Int) :=
        Int.toNat_of_nonneg hj0
      rw [hrow2, hjc, if_pos (by omega)]
      rw [show (d.width * y.tdiv 8 + x - d.width + (i:Int)
        - (d.width * y.tdiv 8 + x - d.width)).toNat = i from by omega]
      rw [hrow1, hjc, if_neg (by omega)]
    · -- untouched bytes
      intro j hexcl
      rw [hrow2]
      by_cases hc2 : 0 ≤ (j:Int) - (d.width * y.tdiv 8 + x - d.width)
          ∧ (j:Int) - (d.width * y.tdiv 8 + x - d.width) < 5
          ∧ x + ((j:Int) - (d.width * y.tdiv 8 + x - d.width)) < d.width
      · exfalso
        obtain ⟨hk0, hk5, hkx⟩ := hc2
        have hkc : ((((j:Int) - (d.width * y.tdiv 8 + x - d.width)).toNat
            : Int)) = (j:Int) - (d.width * y.tdiv 8 + x - d.width) :=
          Int.toNat_of_nonneg hk0
        obtain ⟨hne1, hne2⟩ := hexcl
          ((j:Int) - (d.width * y.tdiv 8 + x - d.width)).toNat
          (by omega) (by rw [hkc]; omega)
        rw [hkc] at hne1 hne2
        omega
      · rw [if_neg hc2, hrow1]
        by_cases hc1 : 0 ≤ (j:Int) - (d.width * y.tdiv 8 + x)
            ∧ (j:Int) - (d.width * y.tdiv 8 + x) < 5
            ∧ x + ((j:Int) - (d.width * y.tdiv 8 + x)) < d.width
        · exfalso
          obtain ⟨hk0, hk5, hkx⟩ := hc1
          have hkc : ((((j:Int) - (d.width * y.tdiv 8 + x)).toNat : Int))
              = (j:Int) - (d.width * y.tdiv 8 + x) :=
            Int.toNat_of_nonneg hk0
          obtain ⟨hne1, hne2⟩ := hexcl
            ((j:Int) - (d.width * y.tdiv 8 + x)).toNat
            (by omega) (by rw [hkc]; omega)
          rw [hkc] at hne1 hne2
          omega
        · rw [if_neg hc1]
    · -- page-aligned anchor: the anchor page row write is the no-op OR/AND-NOT of 0
      intro hs0 i hi hix
      have hj0 := (hWB1 i hi hix).1
      have hjlt := (hWB1 i hi hix).2
      have hjc : (((d.width * y.tdiv 8 + x + (i:Int)).toNat : Int))
          = d.width * y.tdiv 8 + x + (i:Int) := Int.toNat_of_nonneg hj0
      rw [hrow2, hjc, if_neg (by omega), hrow1, hjc, if_pos (by omega)]
      rw [hs0]
      have hshr0 : ∀ n : Nat, goShrB n (8 - (0:Int)) = 0 := by
        intro n
        unfold goShrB
        rw [if_neg (by omega)]
      simp only [hshr0]
      apply chw_zero
      apply hbytes
      rw [List.getD_eq_getElem d.buf 0 (by omega)]
      exact List.getElem_mem _
  · have hp00 : y.tdiv 8 = 0 := by omega
    have hg2 : ¬(d.width * y.tdiv 8 + x - d.width < (d.width * d.height).tdiv 8
        ∧ d.width * y.tdiv 8 + x - d.width ≥ 0) := by
      rw [hp00]
      simp only [mul_zero]
      omega
    rw [if_neg hg2]
    refine ⟨trivial, ?_, fun hq => absurd hq hp1, ?_, ?_, hrecon⟩
    · -- anchor page row
      intro i hi hix
      have hj0 := (hWB1 i hi hix).1
      have hjc : (((d.width * y.tdiv 8 + x + (i:Int)).toNat : Int))
          = d.width * y.tdiv 8 + x + (i:Int) := Int.toNat_of_nonneg hj0
      rw [hrow1, hjc, if_pos (by omega)]
      rw [show (d.width * y.tdiv 8 + x + (i:Int)
        - (d.width * y.tdiv 8 + x)).toNat = i from by omega]
    · -- untouched bytes
      intro j hexcl
      rw [hrow1]
      by_cases hc1 : 0 ≤ (j:Int) - (d.width * y.tdiv 8 + x)
          ∧ (j:Int) - (d.width * y.tdiv 8 + x) < 5
          ∧ x + ((j:Int) - (d.width * y.tdiv 8 + x)) < d.width
      · exfalso
        obtain ⟨hk0, hk5, hkx⟩ := hc1
        have hkc : ((((j:Int) - (d.width * y.tdiv 8 + x)).toNat : Int))
            = (j:Int) - (d.width * y.tdiv 8 + x) := Int.toNat_of_nonneg hk0
        obtain ⟨hne1, hne2⟩ := hexcl
          ((j:Int) - (d.width * y.tdiv 8 + x)).toNat
          (by omega) (by rw [hkc]; omega)
        rw [hkc] at hne1 hne2
        omega
      · rw [if_neg hc1]
    · -- page-aligned anchor with no page above: nothing changes at all
      intro hs0 i hi hix
      have hj0 := (hWB1 i hi hix).1
      have hjlt := (hWB1 i hi hix).2
      have hjc : (((d.width * y.tdiv 8 + x + (i:Int)).toNat : Int))
          = d.width * y.tdiv 8 + x + (i:Int) := Int.toNat_of_nonneg hj0
      rw [hrow1, hjc, if_pos (by omega)]
      rw [hs0]
      have hshr0 : ∀ n : Nat, goShrB n (8 - (0:Int)) = 0 := by
        intro n
        unfold goShrB
        rw [if_neg (by omega)]
      simp only [hshr0]
      apply chw_zero
      apply hbytes
      rw [List.getD_eq_getElem d.buf 0 (by omega)]
      exact List.getElem_mem _

/-- Witness for `char_split_pages`: the 8x24 all-zero display with anchor
(0, 11), rune 0 and an all-0xff glyph satisfies every hypothesis. -/
theorem char_split_pages_witness :
    Inv (mkDisplay 1 8 24)
    ∧ (∀ b ∈ (mkDisplay 1 8 24).buf, b < 256)
    ∧ (Char (mkDisplay 1 8 24) 0 11 white 0 (fun _ => 0xff)).1 = 0 :=
  ⟨by decide, by decide,
   (char_split_pages (mkDisplay 1 8 24) (fun _ => 0xff) 0 11 0 white
      (by decide) (by decide) (by decide) (by decide) (by decide) (by decide)
      (by decide) (by decide)).1⟩

end Gopherbone
